import Mathlib

/-!
Shallow embedding of the repository's single source file, app.py — a Streamlit
GUI that looks up a YouTube video, shells out to a downloader script, scrapes
the downloader's stdout with regular expressions to render progress, and offers
the merged file for browser download before deleting server-side copies.

Python strings are modelled as lists of characters, Python floats as exact
rationals, the file system as a membership predicate on paths, and the
Streamlit calls of the download path as an explicit effect list.  The
downloader core itself (download.py) is not part of the repository; the one
component of it a claim needs (the Segmenter) is modelled from the spec and
marked as such.
-/

namespace App

/-- Python strings, as lists of characters. -/
abbrev Str := List Char

/-! ## Generic character-list helpers -/

/-- str.startswith: is the first list an initial run of the second? -/
def startsWithL : Str → Str → Bool
  | [], _ => true
  | _ :: _, [] => false
  | p :: ps, c :: cs => p == c && startsWithL ps cs

/-- Index of the last occurrence of a character (str.rfind), if any. -/
def rfindIdx (c : Char) : Str → Option ℕ
  | [] => none
  | x :: xs =>
    match rfindIdx c xs with
    | some i => some (i + 1)
    | none => if x = c then some 0 else none

/-- Digits of a natural number, as str(n) renders them. -/
def natStr (n : ℕ) : Str := Nat.toDigits 10 n

/-! ## Exact-rational stand-ins for float formatting -/

/-- Round half to even, as Python float formatting does at the midpoint. -/
def rhe (q : ℚ) : ℤ :=
  let f := Rat.floor q
  if q - f < 1/2 then f
  else if 1/2 < q - f then f + 1
  else if f % 2 = 0 then f else f + 1

/-- Two-digit zero padding for the fractional part of a %.2f rendering. -/
def pad2 (n : ℕ) : Str := if n < 10 then '0' :: natStr n else natStr n

/-- Python %.2f-style rendering, over exact rationals. -/
def fmt2 (q : ℚ) : Str :=
  let n := rhe (q * 100)
  let m := n.natAbs
  (if n < 0 then ['-'] else []) ++ natStr (m / 100) ++ '.' :: pad2 (m % 100)

/-- Python %.1f-style rendering, over exact rationals. -/
def fmt1 (q : ℚ) : Str :=
  let n := rhe (q * 10)
  let m := n.natAbs
  (if n < 0 then ['-'] else []) ++ natStr (m / 10) ++ '.' :: natStr (m % 10)

/-! ## format_size (app.py lines 55-65) -/

/-- The for-loop of format_size over the remaining unit list; the trailing
return after the loop renders the fully divided value with unit GB. -/
def formatSizeLoop : ℚ → List Str → Str
  | b, [] => fmt2 b ++ (" GB").toList
  | b, u :: us => if b < 1024 then fmt2 b ++ ' ' :: u else formatSizeLoop (b / 1024) us

/-- format_size from app.py: convert bytes to a human-readable size. -/
def format_size : Option ℚ → Str
  | none => ("Unknown size").toList
  | some b => formatSizeLoop b [("B").toList, ("KB").toList, ("MB").toList, ("GB").toList]

/-! ## Safe output filenames (app.py lines 121-128) -/

/-- One character of the sanitizing comprehension in download_with_hi_py. -/
def sanitizeChar (c : Char) : Char :=
  if c.isAlphanum ∨ c ∈ [' ', '.', '_', '-'] then c else '_'

/-- Python str.strip: remove whitespace from both ends. -/
def stripWs (cs : Str) : Str :=
  ((cs.dropWhile Char.isWhitespace).reverse.dropWhile Char.isWhitespace).reverse

/-- The safe_title computation: sanitize each character, strip, then replace
every remaining space with an underscore. -/
def safe_title (title : Str) : Str :=
  (stripWs (title.map sanitizeChar)).map (fun c => if c = ' ' then '_' else c)

/-- video_output = safe_title + ".mp4". -/
def video_output (title : Str) : Str := safe_title title ++ (".mp4").toList

/-- audio_output = safe_title + ".m4a". -/
def audio_output (title : Str) : Str := safe_title title ++ (".m4a").toList

/-! ## Path manipulation (os.path, as used on lines 255-260) -/

/-- posixpath.splitext: split off the extension at the last dot, provided some
non-dot character of the base name comes before it. -/
def splitext (p : Str) : Str × Str :=
  match rfindIdx '.' p with
  | none => (p, [])
  | some d =>
    match rfindIdx '/' p with
    | none =>
      if (p.take d).any (fun c => c != '.') then (p.take d, p.drop d) else (p, [])
    | some i =>
      if i + 1 ≤ d ∧ ((p.drop (i + 1)).take (d - (i + 1))).any (fun c => c != '.') then
        (p.take d, p.drop d)
      else (p, [])

/-- os.path.abspath against an explicit working directory.  The names formed
by app.py contain no dot segments, so no normalization step is modelled. -/
def abspath (cwd p : Str) : Str :=
  match p with
  | '/' :: _ => p
  | _ => cwd ++ '/' :: p

/-- os.path.basename: everything after the last path separator. -/
def basename (p : Str) : Str :=
  match rfindIdx '/' p with
  | none => p
  | some i => p.drop (i + 1)

/-- The merged-file name of the success branch (line 258-259):
splitext(video_output)[0] + "_video" + splitext(video_output)[1]. -/
def mergedName (vo : Str) : Str :=
  (splitext vo).1 ++ ("_video").toList ++ (splitext vo).2

/-! ## Session state and server-side cleanup (app.py lines 19-52) -/

structure SessionState where
  file_ready_for_download : Bool
  download_file_path : Option Str
  download_file_name : Option Str
  video_file_path : Option Str
  audio_file_path : Option Str
  file_downloaded : Bool

/-- The file system, as the os.path.exists predicate on paths. -/
abbrev FS := Str → Bool

/-- os.remove of one path. -/
def fsRemove (fs : FS) (p : Str) : FS := fun q => if q = p then false else fs q

/-- Observable Streamlit/os actions of the download path. -/
inductive Effect where
  | showProgress (q : ℚ)
  | message (s : Str)
  | successMsg (s : Str)
  | errorMsg (s : Str)
  | offerDownload (path name : Str)
  | deleteFile (p : Str)

/-- One iteration of the deletion loop in delete_server_files: skipped when the
path is None, empty (falsy), or absent; a raising os.remove is caught and
swallowed (err says which removals raise). -/
def tryRemove (err : Str → Bool) (acc : FS × List Effect) (p? : Option Str) :
    FS × List Effect :=
  match p? with
  | none => acc
  | some p =>
    if p ≠ [] ∧ acc.1 p then
      if err p then acc else (fsRemove acc.1 p, acc.2 ++ [Effect.deleteFile p])
    else acc

/-- delete_server_files from app.py, over an explicit file system and an
oracle saying which os.remove calls raise: try to remove the three tracked
files, then reset the session state unconditionally. -/
def delete_server_files (fs : FS) (err : Str → Bool) (st : SessionState) :
    FS × List Effect × SessionState :=
  let a1 := tryRemove err (fs, []) st.download_file_path
  let a2 := tryRemove err a1 st.video_file_path
  let a3 := tryRemove err a2 st.audio_file_path
  (a3.1, a3.2,
   { file_ready_for_download := false
     download_file_path := none
     download_file_name := none
     video_file_path := none
     audio_file_path := none
     file_downloaded := true })

/-- on_download_complete (lines 273-275): mark the file downloaded, then
delete the server-side copies. -/
def on_download_complete (fs : FS) (err : Str → Bool) (st : SessionState) :
    FS × List Effect × SessionState :=
  delete_server_files fs err { st with file_downloaded := true }

/-! ## The tail of download_with_hi_py (app.py lines 239-297) -/

/-- How the monitored subprocess run ends: a wait() returning an exit status,
or an exception raised somewhere in the handler (caught on line 295). -/
inductive DownloadEvent where
  | completed (returncode : ℤ)
  | raised (msg : Str)

/-- The modified-script path written on line 143. -/
def temp_path : Str := ("hi_modified.py").toList

/-- Result of the tail of download_with_hi_py: the returned boolean, the
session state it leaves, and the effects it performs. -/
structure TailResult where
  ret : Bool
  session : SessionState
  effects : List Effect

/-- Lines 239-297 of app.py: after the reading loop, remove the patched
script, then either publish the merged file for browser download (exit
status 0) or report failure; a raised exception is caught and reported.
In the raised case the model returns the state it was handed, making no
statement about partially applied mutations. -/
def download_tail (cwd : Str) (st : SessionState) (vo ao : Str) :
    DownloadEvent → TailResult
  | DownloadEvent.raised m =>
    { ret := false
      session := st
      effects := [Effect.errorMsg (("Error during download: ").toList ++ m)] }
  | DownloadEvent.completed rc =>
    if rc = 0 then
      let video_path := abspath cwd vo
      let audio_path := abspath cwd ao
      let final_path := abspath cwd (mergedName vo)
      let file_name := basename final_path
      { ret := true
        session := { st with
          file_ready_for_download := true
          download_file_path := some final_path
          download_file_name := some file_name
          video_file_path := some video_path
          audio_file_path := some audio_path }
        effects :=
          [Effect.deleteFile temp_path,
           Effect.showProgress 1,
           Effect.message (("Download completed! Processing final file...").toList),
           Effect.successMsg
             (("✅ Download completed! Video will begin downloading automatically.").toList),
           Effect.offerDownload final_path file_name] }
    else
      { ret := false
        session := st
        effects := [Effect.deleteFile temp_path,
                    Effect.errorMsg (("Download failed. Check the logs for details.").toList)] }

/-! ## The stdout progress scraper (app.py lines 161-235)

The two re.search patterns
  Video: \[.*?\] (\d+\.\d+)% at (.*?)/s ETA: (.*?)(?:\n|$)
  Audio: \[.*?\] (\d+\.\d+)% at (.*?)/s ETA: (.*?)(?:\n|$)
are embedded as a specialized backtracking matcher with Python's leftmost
start position and lazy quantifier preference; a dot never matches a
newline. -/

/-- Match a literal at the head of the input, returning the remainder. -/
def litM : Str → Str → Option Str
  | [], cs => some cs
  | _ :: _, [] => none
  | p :: ps, c :: cs => if p = c then litM ps cs else none

/-- Lazy dot-star without capture, then continuation k: the shortest
expansion on which k succeeds wins; a newline stops the expansion. -/
def lazySkip {α : Type} (k : Str → Option α) : Str → Option α
  | [] => k []
  | c :: cs =>
    match k (c :: cs) with
    | some a => some a
    | none => if c = '\n' then none else lazySkip k cs

/-- Lazy dot-star with capture: the shortest captured text before the
continuation succeeds. -/
def lazyCap {α : Type} (k : Str → Option α) : Str → Option (Str × α)
  | [] => (k []).map (fun a => ([], a))
  | c :: cs =>
    match k (c :: cs) with
    | some a => some ([], a)
    | none =>
      if c = '\n' then none
      else (lazyCap k cs).map (fun pa => (c :: pa.1, pa.2))

/-- Maximal digit run at the head of the input. -/
def takeDigits : Str → Str × Str
  | [] => ([], [])
  | c :: cs =>
    if c.isDigit then
      let p := takeDigits cs
      (c :: p.1, p.2)
    else ([], c :: cs)

/-- The capture group \d+\.\d+ : digits, a dot, digits, matched greedily. -/
def digitsGroup (cs : Str) : Option (Str × Str) :=
  let p1 := takeDigits cs
  if p1.1 = [] then none
  else
    match p1.2 with
    | '.' :: r2 =>
      let p2 := takeDigits r2
      if p2.1 = [] then none else some (p1.1 ++ '.' :: p2.1, p2.2)
    | _ => none

/-- The alternative (?:\n|$). -/
def endOrNl : Str → Option Unit
  | [] => some ()
  | c :: _ => if c = '\n' then some () else none

/-- The whole pattern anchored at the current position, for stream keyword kw:
kw ++ ": [", lazy bar, "] ", the percent group, "% at ", lazy speed capture,
"/s ETA: ", lazy eta capture, then newline or end. -/
def matchProgAt (kw : Str) (cs : Str) : Option (Str × Str × Str) :=
  (litM (kw ++ (": [").toList) cs).bind (fun cs1 =>
    lazySkip (fun cs2 =>
      (litM (("] ").toList) cs2).bind (fun cs3 =>
        (digitsGroup cs3).bind (fun pr =>
          (litM (("% at ").toList) pr.2).bind (fun cs5 =>
            (lazyCap (fun cs6 =>
                (litM (("/s ETA: ").toList) cs6).bind (fun cs7 =>
                  lazyCap endOrNl cs7)) cs5).map (fun sa =>
              (pr.1, sa.1, sa.2.1)))))) cs1)

/-- re.search: try the pattern at every start position, leftmost first. -/
def searchProg (kw : Str) : Str → Option (Str × Str × Str)
  | [] => matchProgAt kw []
  | c :: cs =>
    match matchProgAt kw (c :: cs) with
    | some r => some r
    | none => searchProg kw cs

/-- Fold the digits of a captured run into a natural number. -/
def digitsToNat : Str → ℕ := List.foldl (fun n c => 10 * n + (c.toNat - 48)) 0

/-- Value of a captured \d+\.\d+ text, as float() produces (exactly, over ℚ). -/
def parseDecimal (cs : Str) : ℚ :=
  let w := takeDigits cs
  match w.2 with
  | '.' :: fr => (digitsToNat w.1 : ℚ) + (digitsToNat fr : ℚ) / (10 : ℚ) ^ fr.length
  | _ => (digitsToNat w.1 : ℚ)

/-- The mutable loop variables of the reading loop (lines 161-170). -/
structure ProgState where
  last_video_progress : ℚ
  last_audio_progress : ℚ
  video_speed : Str
  audio_speed : Str
  video_eta : Str
  audio_eta : Str
  combined_progress : ℚ
  status_text : Str

/-- Their initial values (lines 163-170). -/
def init_prog : ProgState :=
  { last_video_progress := 0
    last_audio_progress := 0
    video_speed := ("0 B/s").toList
    audio_speed := ("0 B/s").toList
    video_eta := ("Calculating...").toList
    audio_eta := ("Calculating...").toList
    combined_progress := 0
    status_text := ("Preparing download...").toList }

/-- The video-match branch (lines 186-209). -/
def applyVideo (st : ProgState) (p s e : Str) : ProgState :=
  let video_percent := parseDecimal p
  let lv := video_percent / 100
  let cp := lv * (0.6 : ℚ) + st.last_audio_progress * (0.4 : ℚ)
  let op := cp * 100
  let base := ("Overall: ").toList ++ fmt1 op ++ ("% | Video: ").toList
      ++ fmt1 video_percent ++ ("% at ").toList ++ s ++ ("/s").toList
  let txt :=
    if 0 < st.last_audio_progress then
      base ++ (" | Audio: ").toList ++ fmt1 (st.last_audio_progress * 100)
        ++ ("% at ").toList ++ st.audio_speed ++ ("/s").toList
    else base
  { st with
    last_video_progress := lv
    video_speed := s
    video_eta := e
    combined_progress := cp
    status_text := txt }

/-- The audio-match branch (lines 213-235). -/
def applyAudio (st : ProgState) (p s e : Str) : ProgState :=
  let audio_percent := parseDecimal p
  let la := audio_percent / 100
  let cp := st.last_video_progress * (0.6 : ℚ) + la * (0.4 : ℚ)
  let op := cp * 100
  let txt := ("Overall: ").toList ++ fmt1 op ++ ("% | Video: ").toList
      ++ fmt1 (st.last_video_progress * 100) ++ ("% at ").toList ++ st.video_speed
      ++ ("/s").toList ++ (" | Audio: ").toList ++ fmt1 audio_percent
      ++ ("% at ").toList ++ s ++ ("/s").toList
  { st with
    last_audio_progress := la
    audio_speed := s
    audio_eta := e
    combined_progress := cp
    status_text := txt }

/-- One iteration of the reading loop (lines 179-235): search the line with
the video pattern, then with the audio pattern, applying each match. -/
def processLine (st : ProgState) (line : Str) : ProgState :=
  let st1 :=
    match searchProg (("Video").toList) line with
    | none => st
    | some r => applyVideo st r.1 r.2.1 r.2.2
  match searchProg (("Audio").toList) line with
  | none => st1
  | some r => applyAudio st1 r.1 r.2.1 r.2.2

/-- The exact progress-line shape of the protocol, as a constructor used only
in theorem statements: kw ++ ": [" ++ bar ++ "] " ++ p ++ "% at " ++ s ++
"/s ETA: " ++ e. -/
def mkProgLine (kw bar p s e : Str) : Str :=
  kw ++ (": [").toList ++ bar ++ ("] ").toList ++ p ++ ("% at ").toList
    ++ s ++ ("/s ETA: ").toList ++ e

/-! ## The configuration mechanism (app.py lines 130-156) -/

/-- Python str.replace with a nonempty needle n0 :: ns, replacing every
occurrence left to right.  Structured with explicit fuel so the kernel can
evaluate it; the fuel is the input length, which the scan never exceeds. -/
def replaceAllAux (n0 : Char) (ns repl : Str) : ℕ → Str → Str
  | 0, cs => cs
  | _ + 1, [] => []
  | fuel + 1, c :: cs =>
    if startsWithL (n0 :: ns) (c :: cs) then
      repl ++ replaceAllAux n0 ns repl fuel (cs.drop ns.length)
    else c :: replaceAllAux n0 ns repl fuel cs

/-- Python str.replace with a nonempty needle. -/
def replaceAll (n0 : Char) (ns repl cs : Str) : Str :=
  replaceAllAux n0 ns repl cs.length cs

/-- Lines 137-141: the five str.replace patches applied to the text of
download.py before it is rewritten to disk. -/
def patch_content (content vurl aurl : Str) (threads : ℕ) (vo ao : Str) : Str :=
  let c1 := replaceAll 'V' (("IDEO_URL =").toList)
      ((("VIDEO_URL =\"").toList) ++ vurl ++ (("\"  #").toList)) content
  let c2 := replaceAll 'A' (("UDIO_URL =").toList)
      ((("AUDIO_URL =\"").toList) ++ aurl ++ (("\"  #").toList)) c1
  let c3 := replaceAll 'T' (("HREADS =").toList)
      ((("THREADS = ").toList) ++ natStr threads ++ (("  #").toList)) c2
  let c4 := replaceAll 'V' (("IDEO_OUTPUT =").toList)
      ((("VIDEO_OUTPUT = \"").toList) ++ vo ++ (("\"  #").toList)) c3
  let c5 := replaceAll 'A' (("UDIO_OUTPUT =").toList)
      ((("AUDIO_OUTPUT = \"").toList) ++ ao ++ (("\"  #").toList)) c4
  c5

/-- The spawned process and the script source it runs. -/
structure Invocation where
  argv : List Str
  script_source : Str

/-- Lines 130-156 of app.py: read the original download.py text, string-patch
the five assignment markers, write the result to hi_modified.py, and spawn
python on that file.  No configuration value travels in argv. -/
def configure_and_spawn (original vurl aurl : Str) (threads : ℕ) (vo ao : Str) :
    Invocation :=
  { argv := [("python").toList, temp_path]
    script_source := patch_content original vurl aurl threads vo ao }

/-- Modelled from the spec: a minimal stand-in for the text of download.py
(the downloader core is not part of the repository sources), carrying the
five assignment markers of the invocation contract of spec section 6. -/
def download_py_model : Str :=
  ("VIDEO_URL = None\nAUDIO_URL = None\nTHREADS = 32\nVIDEO_OUTPUT = None\nAUDIO_OUTPUT = None\n").toList

/-! ## The Segmenter (modelled from the spec) -/

/-- A byte-range segment; endOffset is inclusive, as in the spec data model. -/
structure Segment where
  index : ℕ
  startOffset : ℕ
  endOffset : ℕ
deriving DecidableEq

/-- Modelled from the spec: the Segmenter of the downloader core (download.py
is absent from the repository sources).  Per spec section 4.2: reduce the
effective thread count to min(threadCount, totalBytes) so no zero-length
segment is created, divide as evenly as possible, and let the last segment
absorb the remainder of the integer division so the lengths sum to
totalBytes. -/
def segmenter (totalBytes threadCount : ℕ) : List Segment :=
  let n := min threadCount totalBytes
  let q := totalBytes / n
  (List.range n).map (fun i =>
    { index := i
      startOffset := i * q
      endOffset := (if i = n - 1 then totalBytes else (i + 1) * q) - 1 })

/-!
# Lemmas and claim theorems
-/

/-! ## Generic helper lemmas -/

theorem startsWithL_append_left (x : Str) {a b : Str} (h : startsWithL a b = true) :
    startsWithL (x ++ a) (x ++ b) = true := by
  induction x with
  | nil => simpa using h
  | cons c cs ih => simpa [startsWithL] using ih

theorem startsWithL_self_append (p b : Str) : startsWithL p (p ++ b) = true := by
  induction p with
  | nil => rfl
  | cons c cs ih => simpa [startsWithL] using ih

theorem startsWithL_append_right {p a : Str} (b : Str) (h : startsWithL p a = true) :
    startsWithL p (a ++ b) = true := by
  induction p generalizing a with
  | nil => rfl
  | cons c cs ih =>
    cases a with
    | nil => simp [startsWithL] at h
    | cons d ds =>
      simp only [startsWithL, Bool.and_eq_true] at h
      simpa [startsWithL, h.1] using ih h.2

theorem mem_dropWhileP {p : Char → Bool} : ∀ {l : Str} {c : Char}, c ∈ l.dropWhile p → c ∈ l := by
  intro l
  induction l with
  | nil => intro c h; simp at h
  | cons x xs ih =>
    intro c h
    rw [List.dropWhile_cons] at h
    split at h
    · exact List.mem_cons_of_mem _ (ih h)
    · exact h

theorem mem_stripWs {l : Str} {c : Char} (h : c ∈ stripWs l) : c ∈ l := by
  unfold stripWs at h
  exact mem_dropWhileP (List.mem_reverse.mp (mem_dropWhileP (List.mem_reverse.mp h)))

/-! ## C9: delete_server_files is total and always resets the session -/

/-- C9: delete_server_files never raises: each removal attempt that fails is
swallowed (a run in which every os.remove raises leaves the file system
untouched), and whatever the error oracle does, the session state is reset
to the same fully cleared record with file_downloaded set to True. -/
theorem C9_delete_server_files (fs : FS) (err : Str → Bool) (st : SessionState) :
    (delete_server_files fs err st).2.2
      = { file_ready_for_download := false
          download_file_path := none
          download_file_name := none
          video_file_path := none
          audio_file_path := none
          file_downloaded := true } ∧
    (∀ q : Str, (delete_server_files fs (fun _ => true) st).1 q = fs q) := by
  refine ⟨rfl, ?_⟩
  intro q
  have h : ∀ (acc : FS × List Effect) (p? : Option Str),
      tryRemove (fun _ => true) acc p? = acc := by
    intro acc p?
    cases p? with
    | none => rfl
    | some p => simp [tryRemove]
  simp [delete_server_files, h]

/-! ## C4: the returned boolean tracks the exit status exactly -/

/-- C4: download_with_hi_py reports success (returns True) exactly when the
spawned process exits with status 0; every nonzero status produces the
failure message and False, and a raised exception also produces False with
an error message. -/
theorem C4_exit_status (cwd : Str) (st : SessionState) (vo ao : Str) (ev : DownloadEvent) :
    (((download_tail cwd st vo ao ev).ret = true) ↔ ev = DownloadEvent.completed 0) ∧
    (∀ rc : ℤ, rc ≠ 0 →
      (download_tail cwd st vo ao (DownloadEvent.completed rc)).ret = false ∧
      Effect.errorMsg (("Download failed. Check the logs for details.").toList)
        ∈ (download_tail cwd st vo ao (DownloadEvent.completed rc)).effects) ∧
    (∀ m : Str, (download_tail cwd st vo ao (DownloadEvent.raised m)).ret = false ∧
      Effect.errorMsg (("Error during download: ").toList ++ m)
        ∈ (download_tail cwd st vo ao (DownloadEvent.raised m)).effects) := by
  refine ⟨?_, ?_, ?_⟩
  · cases ev with
    | raised m => simp [download_tail]
    | completed rc =>
      by_cases hrc : rc = 0
      · subst hrc; simp [download_tail]
      · simp [download_tail, hrc]
  · intro rc hrc
    constructor <;> simp [download_tail, hrc]
  · intro m
    constructor <;> simp [download_tail]

/-- Witness for C4 at a concrete nonzero exit status. -/
theorem C4_witness :
    (download_tail (("/srv").toList) ⟨false, none, none, none, none, false⟩
      (("a.mp4").toList) (("a.m4a").toList) (DownloadEvent.completed 1)).ret = false ∧
    Effect.errorMsg (("Download failed. Check the logs for details.").toList)
      ∈ (download_tail (("/srv").toList) ⟨false, none, none, none, none, false⟩
          (("a.mp4").toList) (("a.m4a").toList) (DownloadEvent.completed 1)).effects :=
  (C4_exit_status (("/srv").toList) ⟨false, none, none, none, none, false⟩
    (("a.mp4").toList) (("a.m4a").toList) (DownloadEvent.completed 1)).2.1 1 (by decide)

/-! ## C8: sanitized output filenames -/

/-- C8: the derived output filenames are the sanitized title (only
alphanumeric characters and dot, underscore, hyphen; no spaces survive)
followed by ".mp4" for the video output and ".m4a" for the audio output,
so both outputs share the same base name. -/
theorem C8_safe_filenames (title : Str) :
    ((safe_title title).all
      (fun c => c.isAlphanum || c == '.' || c == '_' || c == '-')) = true ∧
    ((safe_title title).all (fun c => c != ' ')) = true ∧
    video_output title = safe_title title ++ (".mp4").toList ∧
    audio_output title = safe_title title ++ (".m4a").toList := by
  refine ⟨?_, ?_, rfl, rfl⟩
  · rw [List.all_eq_true]
    intro c hc
    unfold safe_title at hc
    rcases List.mem_map.mp hc with ⟨c1, hc1, rfl⟩
    rcases List.mem_map.mp (mem_stripWs hc1) with ⟨c0, _, rfl⟩
    unfold sanitizeChar
    by_cases h : c0.isAlphanum ∨ c0 ∈ [' ', '.', '_', '-']
    · rw [if_pos h]
      rcases h with h | h
      · by_cases hsp : c0 = ' '
        · subst hsp; exact absurd h (by decide)
        · simp [hsp, h]
      · simp only [List.mem_cons, List.not_mem_nil, or_false] at h
        rcases h with rfl | rfl | rfl | rfl <;> decide
    · rw [if_neg h]; decide
  · rw [List.all_eq_true]
    intro c hc
    unfold safe_title at hc
    rcases List.mem_map.mp hc with ⟨c1, _, rfl⟩
    by_cases hsp : c1 = ' '
    · rw [if_pos hsp]; decide
    · rw [if_neg hsp]; simpa [bne_iff_ne] using hsp

/-! ## C7: the configuration mechanism is source rewriting, not argv -/

set_option maxRecDepth 8000 in
/-- C7 (counterexample to the claim as stated): at a concrete original script
text and concrete configuration values, the source handed to the spawned
interpreter differs from the original script text — the parent does patch
the script's source — and the argument vector carries only the interpreter
and the patched file name, no configuration value. -/
theorem C7_counterexample :
    (configure_and_spawn download_py_model (("http://v.example").toList)
        (("http://a.example").toList) 32 (("clip.mp4").toList)
        (("clip.m4a").toList)).script_source ≠ download_py_model ∧
    (configure_and_spawn download_py_model (("http://v.example").toList)
        (("http://a.example").toList) 32 (("clip.mp4").toList)
        (("clip.m4a").toList)).argv
      = [("python").toList, ("hi_modified.py").toList] := by
  exact ⟨by decide, rfl⟩

set_option maxRecDepth 8000 in
/-- C7 (amended): the parent configures the core by text-patching: for every
original script text and every configuration, the spawned argv is exactly
python on hi_modified.py, and the script source written there is the
original with the five assignment markers string-replaced; at the modelled
download.py text, the five values are interpolated into the source. -/
theorem C7_text_patching (original vurl aurl : Str) (threads : ℕ) (vo ao : Str) :
    (configure_and_spawn original vurl aurl threads vo ao).argv
      = [("python").toList, temp_path] ∧
    (configure_and_spawn original vurl aurl threads vo ao).script_source
      = patch_content original vurl aurl threads vo ao ∧
    (configure_and_spawn download_py_model (("http://v.example").toList)
        (("http://a.example").toList) 32 (("clip.mp4").toList)
        (("clip.m4a").toList)).script_source
      = ("VIDEO_URL =\"http://v.example\"  # None\nAUDIO_URL =\"http://a.example\"  # None\nTHREADS = 32  # 32\nVIDEO_OUTPUT = \"clip.mp4\"  # None\nAUDIO_OUTPUT = \"clip.m4a\"  # None\n").toList := by
  exact ⟨rfl, rfl, by decide⟩

/-! ## Path lemmas, for C3 and C6 -/

theorem rfindIdx_eq_none {c : Char} {l : Str} (h : c ∉ l) : rfindIdx c l = none := by
  induction l with
  | nil => rfl
  | cons x xs ih =>
    have hx : ¬ x = c := fun hxc => h (hxc ▸ List.mem_cons_self x xs)
    simp [rfindIdx, ih (fun hm => h (List.mem_cons_of_mem x hm)), hx]

theorem rfindIdx_append_last {c : Char} (xs : Str) {ys : Str} (h : c ∉ ys) :
    rfindIdx c (xs ++ c :: ys) = some xs.length := by
  induction xs with
  | nil => simp [rfindIdx, rfindIdx_eq_none h]
  | cons x xs ih => simp [rfindIdx, ih]

theorem abspath_eq_append (cwd : Str) {p : Str} (h : ('/') ∉ p) :
    abspath cwd p = cwd ++ '/' :: p := by
  unfold abspath
  split
  · exact absurd (List.mem_cons_self _ _) h
  · rfl

theorem slash_mem_abspath (cwd p : Str) : ('/') ∈ abspath cwd p := by
  unfold abspath
  split
  · exact List.mem_cons_self _ _
  · exact List.mem_append_right _ (List.mem_cons_self _ _)

theorem basename_abspath (cwd : Str) {p : Str} (h : ('/') ∉ p) :
    basename (abspath cwd p) = p := by
  rw [abspath_eq_append cwd h]
  unfold basename
  rw [rfindIdx_append_last cwd h]
  show List.drop (cwd.length + 1) (cwd ++ '/' :: p) = p
  rw [show cwd ++ '/' :: p = (cwd ++ ['/']) ++ p by simp,
    show cwd.length + 1 = (cwd ++ ['/']).length by simp]
  exact List.drop_left _ _

theorem splitext_mem₁ {c : Char} {p : Str} (h : c ∈ (splitext p).1) : c ∈ p := by
  unfold splitext at h
  split at h
  · exact h
  · split at h <;> split at h
    · exact List.take_subset _ _ h
    · exact h
    · exact List.take_subset _ _ h
    · exact h

theorem splitext_mem₂ {c : Char} {p : Str} (h : c ∈ (splitext p).2) : c ∈ p := by
  unfold splitext at h
  split at h
  · simp at h
  · split at h <;> split at h
    · exact List.drop_subset _ _ h
    · simp at h
    · exact List.drop_subset _ _ h
    · simp at h

theorem mergedName_no_slash {vo : Str} (h : ('/') ∉ vo) : ('/') ∉ mergedName vo := by
  unfold mergedName
  intro hm
  rcases List.mem_append.mp hm with hm' | hm'
  · rcases List.mem_append.mp hm' with hm'' | hm''
    · exact h (splitext_mem₁ hm'')
    · exact absurd hm'' (by decide)
  · exact h (splitext_mem₂ hm')

/-! ## C3: the name of the file offered for browser download -/

/-- C3: when the downloader exits with status 0 and the video output filename
splits as base and extension, the file offered for browser download is named
base ++ "_video" ++ extension; in particular "clip.mp4" yields
"clip_video.mp4". -/
theorem C3_merged_filename (cwd : Str) (st : SessionState) (vo ao b e : Str)
    (hsplit : splitext vo = (b, e)) (hsep : ('/') ∉ vo) :
    (download_tail cwd st vo ao (DownloadEvent.completed 0)).session.download_file_name
      = some (b ++ ("_video").toList ++ e) ∧
    mergedName (("clip.mp4").toList) = ("clip_video.mp4").toList := by
  constructor
  · have hname : basename (abspath cwd (mergedName vo)) = mergedName vo :=
      basename_abspath cwd (mergedName_no_slash hsep)
    have hmerged : mergedName vo = b ++ ("_video").toList ++ e := by
      unfold mergedName
      rw [hsplit]
    simp only [download_tail]
    rw [if_pos trivial]
    simp only [Option.some.injEq]
    rw [hname]
    exact hmerged
  · decide

/-- Witness for C3 at the scenario of the spec: VIDEO_OUTPUT clip.mp4. -/
theorem C3_witness :
    (download_tail (("/srv").toList) ⟨false, none, none, none, none, false⟩
        (("clip.mp4").toList) (("clip.m4a").toList)
        (DownloadEvent.completed 0)).session.download_file_name
      = some ((("clip").toList) ++ ("_video").toList ++ ((".mp4").toList)) ∧
    mergedName (("clip.mp4").toList) = ("clip_video.mp4").toList :=
  C3_merged_filename (("/srv").toList) ⟨false, none, none, none, none, false⟩
    (("clip.mp4").toList) (("clip.m4a").toList) (("clip").toList) ((".mp4").toList)
    (by decide) (by decide)

/-! ## C10: format_size -/

/-- C10: format_size(None) is "Unknown size"; every nonnegative input yields a
two-decimal value followed by one of the units B, KB, MB, GB; every input of
at least 1024^4 is divided by 1024 four times and still labeled GB. -/
theorem C10_format_size :
    format_size none = ("Unknown size").toList ∧
    (∀ q : ℚ, 0 ≤ q → ∃ v : ℚ, ∃ u : Str,
      (u = ("B").toList ∨ u = ("KB").toList ∨ u = ("MB").toList ∨ u = ("GB").toList) ∧
      format_size (some q) = fmt2 v ++ ' ' :: u) ∧
    (∀ q : ℚ, (1024 : ℚ)^4 ≤ q →
      format_size (some q) = fmt2 (q / 1024^4) ++ (" GB").toList) := by
  refine ⟨rfl, ?_, ?_⟩
  · intro q _
    by_cases h1 : q < 1024
    · exact ⟨q, ("B").toList, Or.inl rfl, by simp [format_size, formatSizeLoop, h1]⟩
    · by_cases h2 : q / 1024 < 1024
      · exact ⟨q / 1024, ("KB").toList, Or.inr (Or.inl rfl),
          by simp [format_size, formatSizeLoop, h1, h2]⟩
      · by_cases h3 : q / 1024 / 1024 < 1024
        · exact ⟨q / 1024 / 1024, ("MB").toList, Or.inr (Or.inr (Or.inl rfl)),
            by simp [format_size, formatSizeLoop, h1, h2, h3]⟩
        · by_cases h4 : q / 1024 / 1024 / 1024 < 1024
          · exact ⟨q / 1024 / 1024 / 1024, ("GB").toList, Or.inr (Or.inr (Or.inr rfl)),
              by simp [format_size, formatSizeLoop, h1, h2, h3, h4]⟩
          · refine ⟨q / 1024 / 1024 / 1024 / 1024, ("GB").toList,
              Or.inr (Or.inr (Or.inr rfl)), ?_⟩
            have hsp : (" GB").toList = ' ' :: ("GB").toList := rfl
            simp [format_size, formatSizeLoop, h1, h2, h3, h4, hsp]
  · intro q hq
    have h1 : ¬ q < 1024 := by
      push_neg
      calc (1024 : ℚ) ≤ 1024^4 := by norm_num
        _ ≤ q := hq
    have hq1 : (1024 : ℚ)^3 ≤ q / 1024 := by
      rw [le_div_iff₀ (by norm_num : (0 : ℚ) < 1024)]
      calc (1024 : ℚ)^3 * 1024 = 1024^4 := by ring
        _ ≤ q := hq
    have h2 : ¬ q / 1024 < 1024 := by
      push_neg
      calc (1024 : ℚ) ≤ 1024^3 := by norm_num
        _ ≤ q / 1024 := hq1
    have hq2 : (1024 : ℚ)^2 ≤ q / 1024 / 1024 := by
      rw [le_div_iff₀ (by norm_num : (0 : ℚ) < 1024)]
      calc (1024 : ℚ)^2 * 1024 = 1024^3 := by ring
        _ ≤ q / 1024 := hq1
    have h3 : ¬ q / 1024 / 1024 < 1024 := by
      push_neg
      calc (1024 : ℚ) ≤ 1024^2 := by norm_num
        _ ≤ q / 1024 / 1024 := hq2
    have hq3 : (1024 : ℚ) ≤ q / 1024 / 1024 / 1024 := by
      rw [le_div_iff₀ (by norm_num : (0 : ℚ) < 1024)]
      calc (1024 : ℚ) * 1024 = 1024^2 := by ring
        _ ≤ q / 1024 / 1024 := hq2
    have h4 : ¬ q / 1024 / 1024 / 1024 < 1024 := not_lt.mpr hq3
    have hdiv : q / 1024 / 1024 / 1024 / 1024 = q / 1024^4 := by
      rw [div_div, div_div, div_div]
      norm_num
    simp [format_size, formatSizeLoop, h1, h2, h3, h4, hdiv]

/-- Witness for C10 at the concrete inputs 5 and 1024^4. -/
theorem C10_witness :
    (∃ v : ℚ, ∃ u : Str,
      (u = ("B").toList ∨ u = ("KB").toList ∨ u = ("MB").toList ∨ u = ("GB").toList) ∧
      format_size (some 5) = fmt2 v ++ ' ' :: u) ∧
    format_size (some ((1024 : ℚ)^4))
      = fmt2 ((1024 : ℚ)^4 / 1024^4) ++ (" GB").toList :=
  ⟨C10_format_size.2.1 5 (by norm_num), C10_format_size.2.2 ((1024 : ℚ)^4) (le_refl _)⟩

/-! ## C6: offer before delete, and what the callback deletes -/

theorem tryRemove_fst (err : Str → Bool) (acc : FS × List Effect) (p? : Option Str) (q : Str) :
    (tryRemove err acc p?).1 q
      = (acc.1 q && !((p? == some q) && !(err q) && !(q == []))) := by
  cases p? with
  | none => simp [tryRemove]
  | some p =>
    by_cases hq : p = q
    · subst hq
      by_cases hnil : p = []
      · subst hnil
        simp [tryRemove]
      · by_cases hfs : acc.1 p
        · by_cases herr : err p
          · simp [tryRemove, hnil, hfs, herr]
          · simp [tryRemove, hnil, hfs, herr, fsRemove]
        · simp [tryRemove, hnil, hfs]
    · have hqp : ¬ q = p := fun h => hq h.symm
      have hbeq : (some p == some q) = false := by simp [hq]
      simp only [tryRemove]
      split_ifs with h1 h2 <;> simp [fsRemove, hbeq, hqp]

theorem delete_server_files_fst (fs : FS) (err : Str → Bool) (st : SessionState) (q : Str) :
    (delete_server_files fs err st).1 q
      = (fs q &&
         !(((st.download_file_path == some q) || (st.video_file_path == some q)
            || (st.audio_file_path == some q)) && !(err q) && !(q == []))) := by
  simp only [delete_server_files]
  rw [tryRemove_fst, tryRemove_fst, tryRemove_fst]
  dsimp only
  cases hfs : fs q <;> cases h1 : (st.download_file_path == some q)
    <;> cases h2 : (st.video_file_path == some q)
    <;> cases h3 : (st.audio_file_path == some q)
    <;> cases he : err q <;> cases hn : (q == []) <;> rfl

theorem tryRemove_all {P : Effect → Bool} (err : Str → Bool) (acc : FS × List Effect)
    (p? : Option Str) (hacc : acc.2.all P = true)
    (hp : ∀ p, p? = some p → P (Effect.deleteFile p) = true) :
    ((tryRemove err acc p?).2).all P = true := by
  cases p? with
  | none => exact hacc
  | some p =>
    simp only [tryRemove]
    split_ifs with h1 h2
    · exact hacc
    · simp [List.all_append, hacc, hp p rfl]
    · exact hacc

theorem delete_server_files_all (fs : FS) (err : Str → Bool) (st : SessionState) :
    ((delete_server_files fs err st).2.1).all
      (fun ef => match ef with
        | Effect.deleteFile p =>
            (st.download_file_path == some p) || (st.video_file_path == some p)
              || (st.audio_file_path == some p)
        | _ => false) = true := by
  simp only [delete_server_files]
  apply tryRemove_all
  · apply tryRemove_all
    · apply tryRemove_all
      · rfl
      · intro p hp; simp [hp]
    · intro p hp; simp [hp]
  · intro p hp; simp [hp]

/-- C6: the success branch offers the merged file for browser download while
deleting no server-side copy (the only file it removes is the patched
script, which is none of the tracked media paths); the three tracked paths
are recorded in session state; and the download callback, when it fires,
runs delete_server_files, which removes exactly the tracked merged, video
and audio files (those that exist, are non-empty names, and whose removal
does not raise) and clears exactly the tracking fields: the three paths and
the file name to None, file_ready_for_download to False, file_downloaded to
True. -/
theorem C6_cleanup_protocol (cwd : Str) (st : SessionState) (vo ao : Str)
    (ev : DownloadEvent) (fs : FS) (err : Str → Bool) (q : Str) :
    ((download_tail cwd st vo ao ev).effects.all
      (fun ef => match ef with
        | Effect.deleteFile p => p == temp_path
        | _ => true)) = true ∧
    ((download_tail cwd st vo ao (DownloadEvent.completed 0)).effects.any
      (fun ef => match ef with
        | Effect.offerDownload pa nm =>
            (pa == abspath cwd (mergedName vo))
              && (nm == basename (abspath cwd (mergedName vo)))
        | _ => false)) = true ∧
    abspath cwd (mergedName vo) ≠ temp_path ∧
    (download_tail cwd st vo ao (DownloadEvent.completed 0)).session.download_file_path
      = some (abspath cwd (mergedName vo)) ∧
    (download_tail cwd st vo ao (DownloadEvent.completed 0)).session.video_file_path
      = some (abspath cwd vo) ∧
    (download_tail cwd st vo ao (DownloadEvent.completed 0)).session.audio_file_path
      = some (abspath cwd ao) ∧
    on_download_complete fs err st
      = delete_server_files fs err { st with file_downloaded := true } ∧
    (on_download_complete fs err st).2.2
      = { file_ready_for_download := false
          download_file_path := none
          download_file_name := none
          video_file_path := none
          audio_file_path := none
          file_downloaded := true } ∧
    (on_download_complete fs err st).1 q
      = (fs q &&
         !(((st.download_file_path == some q) || (st.video_file_path == some q)
            || (st.audio_file_path == some q)) && !(err q) && !(q == []))) ∧
    ((on_download_complete fs err st).2.1).all
      (fun ef => match ef with
        | Effect.deleteFile p =>
            (st.download_file_path == some p) || (st.video_file_path == some p)
              || (st.audio_file_path == some p)
        | _ => false) = true := by
  refine ⟨?_, ?_, ?_, ?_, ?_, ?_, rfl, rfl, ?_, ?_⟩
  · cases ev with
    | raised m => simp [download_tail]
    | completed rc =>
      by_cases hrc : rc = 0 <;> simp [download_tail, hrc]
  · simp [download_tail]
  · intro h
    exact absurd (h ▸ slash_mem_abspath cwd (mergedName vo)) (by decide)
  · simp [download_tail]
  · simp [download_tail]
  · simp [download_tail]
  · show (delete_server_files fs err _).1 q = _
    rw [delete_server_files_fst]
  · exact delete_server_files_all fs err _

/-! ## C5: the Segmenter (spec-modelled) -/

theorem segmenter_mem {tb tc : ℕ} {sg : Segment} :
    sg ∈ segmenter tb tc ↔ ∃ i, i < min tc tb ∧
      sg = ⟨i, i * (tb / min tc tb),
            (if i = min tc tb - 1 then tb else (i + 1) * (tb / min tc tb)) - 1⟩ := by
  simp only [segmenter, List.mem_map, List.mem_range]
  constructor
  · rintro ⟨i, hi, rfl⟩; exact ⟨i, hi, rfl⟩
  · rintro ⟨i, hi, rfl⟩; exact ⟨i, hi, rfl⟩

/-- C5: for totalBytes > 0 and threadCount ≥ 1 the Segmenter's segments are
pairwise disjoint, contiguous, cover the byte interval from 0 to totalBytes
exactly, and number min(threadCount, totalBytes); at totalBytes 10 and
threadCount 32 it produces ten segments of length one. -/
theorem C5_segmenter (tb tc : ℕ) (h1 : 0 < tb) (h2 : 1 ≤ tc) :
    (segmenter tb tc).length = min tc tb ∧
    (∀ sg ∈ segmenter tb tc, ∀ sg2 ∈ segmenter tb tc, sg.index ≠ sg2.index →
      sg.endOffset < sg2.startOffset ∨ sg2.endOffset < sg.startOffset) ∧
    (∀ sg ∈ segmenter tb tc, ∀ sg2 ∈ segmenter tb tc, sg2.index = sg.index + 1 →
      sg2.startOffset = sg.endOffset + 1) ∧
    (∀ k : ℕ, k < tb ↔ ∃ sg ∈ segmenter tb tc,
      sg.startOffset ≤ k ∧ k ≤ sg.endOffset) ∧
    segmenter 10 32 = [⟨0, 0, 0⟩, ⟨1, 1, 1⟩, ⟨2, 2, 2⟩, ⟨3, 3, 3⟩, ⟨4, 4, 4⟩,
      ⟨5, 5, 5⟩, ⟨6, 6, 6⟩, ⟨7, 7, 7⟩, ⟨8, 8, 8⟩, ⟨9, 9, 9⟩] := by
  have hn : 0 < min tc tb := lt_min h2 h1
  have hnle : min tc tb ≤ tb := min_le_right _ _
  have hq : 1 ≤ tb / min tc tb := (Nat.one_le_div_iff hn).mpr hnle
  have hnq : min tc tb * (tb / min tc tb) ≤ tb := by
    rw [Nat.mul_comm]
    exact Nat.div_mul_le_self tb _
  refine ⟨?_, ?_, ?_, ?_, by decide⟩
  · simp [segmenter]
  · have key : ∀ i j, i < j → j < min tc tb →
        (if i = min tc tb - 1 then tb else (i + 1) * (tb / min tc tb)) - 1
          < j * (tb / min tc tb) := by
      intro i j hij hj
      have hine : i ≠ min tc tb - 1 := by omega
      rw [if_neg hine]
      have ha : (i + 1) * (tb / min tc tb) ≤ j * (tb / min tc tb) :=
        Nat.mul_le_mul_right _ (by omega)
      have hb : 0 < (i + 1) * (tb / min tc tb) := Nat.mul_pos (by omega) (by omega)
      omega
    intro sg hsg sg2 hsg2 hne
    rcases segmenter_mem.mp hsg with ⟨i, hi, rfl⟩
    rcases segmenter_mem.mp hsg2 with ⟨j, hj, rfl⟩
    dsimp only at hne ⊢
    rcases Nat.lt_or_ge i j with h | h
    · exact Or.inl (key i j h hj)
    · have hji : j < i := by omega
      exact Or.inr (key j i hji hi)
  · intro sg hsg sg2 hsg2 hidx
    rcases segmenter_mem.mp hsg with ⟨i, hi, rfl⟩
    rcases segmenter_mem.mp hsg2 with ⟨j, hj, rfl⟩
    dsimp only at hidx ⊢
    subst hidx
    have hine : i ≠ min tc tb - 1 := by omega
    rw [if_neg hine]
    have hb : 0 < (i + 1) * (tb / min tc tb) := Nat.mul_pos (by omega) (by omega)
    omega
  · intro k
    constructor
    · intro hk
      have hq0 : 0 < tb / min tc tb := hq
      by_cases hcase : k < (min tc tb - 1) * (tb / min tc tb)
      · have hlt : k / (tb / min tc tb) < min tc tb - 1 :=
          (Nat.div_lt_iff_lt_mul hq0).mpr hcase
        refine ⟨⟨k / (tb / min tc tb), (k / (tb / min tc tb)) * (tb / min tc tb),
            (if k / (tb / min tc tb) = min tc tb - 1 then tb
             else (k / (tb / min tc tb) + 1) * (tb / min tc tb)) - 1⟩,
          segmenter_mem.mpr ⟨k / (tb / min tc tb), by omega, rfl⟩, ?_, ?_⟩
        · exact Nat.div_mul_le_self k _
        · dsimp only
          rw [if_neg (by omega : ¬ k / (tb / min tc tb) = min tc tb - 1)]
          have hmod := Nat.div_add_mod k (tb / min tc tb)
          have hmlt : k % (tb / min tc tb) < tb / min tc tb := Nat.mod_lt k hq0
          have hup : k < (k / (tb / min tc tb) + 1) * (tb / min tc tb) := by
            calc k = (tb / min tc tb) * (k / (tb / min tc tb)) + k % (tb / min tc tb) :=
                  hmod.symm
              _ < (tb / min tc tb) * (k / (tb / min tc tb)) + (tb / min tc tb) := by omega
              _ = (k / (tb / min tc tb) + 1) * (tb / min tc tb) := by ring
          omega
      · refine ⟨⟨min tc tb - 1, (min tc tb - 1) * (tb / min tc tb),
            (if min tc tb - 1 = min tc tb - 1 then tb
             else (min tc tb - 1 + 1) * (tb / min tc tb)) - 1⟩,
          segmenter_mem.mpr ⟨min tc tb - 1, by omega, rfl⟩, ?_, ?_⟩
        · dsimp only; omega
        · dsimp only; rw [if_pos rfl]; omega
    · rintro ⟨sg, hsg, hs, he⟩
      rcases segmenter_mem.mp hsg with ⟨i, hi, rfl⟩
      dsimp only at hs he
      by_cases hin : i = min tc tb - 1
      · rw [if_pos hin] at he; omega
      · rw [if_neg hin] at he
        have hle : (i + 1) * (tb / min tc tb) ≤ min tc tb * (tb / min tc tb) :=
          Nat.mul_le_mul_right _ (by omega)
        have hpos : 0 < (i + 1) * (tb / min tc tb) := Nat.mul_pos (by omega) (by omega)
        omega

/-- Witness for C5 at the scenario of the spec: totalBytes 10, threadCount 32. -/
theorem C5_witness :
    (segmenter 10 32).length = min 32 10 ∧
    segmenter 10 32 = [⟨0, 0, 0⟩, ⟨1, 1, 1⟩, ⟨2, 2, 2⟩, ⟨3, 3, 3⟩, ⟨4, 4, 4⟩,
      ⟨5, 5, 5⟩, ⟨6, 6, 6⟩, ⟨7, 7, 7⟩, ⟨8, 8, 8⟩, ⟨9, 9, 9⟩] :=
  ⟨(C5_segmenter 10 32 (by decide) (by decide)).1,
   (C5_segmenter 10 32 (by decide) (by decide)).2.2.2.2⟩

/-! ## Matcher lemmas, for C1 and C2 -/

theorem litM_append (p rest : Str) : litM p (p ++ rest) = some rest := by
  induction p with
  | nil => rfl
  | cons c cs ih => simp [litM, ih]

theorem litM_head_ne {a : Char} (ps : Str) {c : Char} (cs : Str) (h : ¬ a = c) :
    litM (a :: ps) (c :: cs) = none := by
  simp [litM, h]

theorem lazySkip_of_found {α : Type} (k : Str → Option α) (cs : Str) (a : α)
    (h : k cs = some a) : lazySkip k cs = some a := by
  cases cs with
  | nil => simpa [lazySkip] using h
  | cons c cs => simp [lazySkip, h]

theorem lazySkip_append {α : Type} (k : Str → Option α) (mid rest : Str)
    (hnl : ('\n') ∉ mid)
    (hfail : ∀ t, t ≠ [] → List.IsSuffix t mid → k (t ++ rest) = none) :
    lazySkip k (mid ++ rest) = lazySkip k rest := by
  induction mid with
  | nil => rfl
  | cons c cs ih =>
    have hk : k (c :: (cs ++ rest)) = none := by
      rw [← List.cons_append]
      exact hfail (c :: cs) (by simp) (List.suffix_refl _)
    have hc : ¬ c = '\n' := fun hcc => hnl (hcc ▸ List.mem_cons_self c cs)
    rw [List.cons_append]
    simp only [lazySkip]
    rw [hk]
    simp only [hc, if_false]
    exact ih (fun hm => hnl (List.mem_cons_of_mem c hm))
      (fun t ht hsuf => hfail t ht (hsuf.trans (List.suffix_cons c cs)))

theorem lazyCap_append {α : Type} (k : Str → Option α) (mid rest : Str)
    (hnl : ('\n') ∉ mid)
    (hfail : ∀ t, t ≠ [] → List.IsSuffix t mid → k (t ++ rest) = none)
    (a : α) (hsucc : k rest = some a) :
    lazyCap k (mid ++ rest) = some (mid, a) := by
  induction mid with
  | nil =>
    cases rest with
    | nil => simpa [lazyCap] using congrArg (Option.map (fun b => (([] : Str), b))) hsucc
    | cons r rs => simp [lazyCap, hsucc]
  | cons c cs ih =>
    have hk : k (c :: (cs ++ rest)) = none := by
      rw [← List.cons_append]
      exact hfail (c :: cs) (by simp) (List.suffix_refl _)
    have hc : ¬ c = '\n' := fun hcc => hnl (hcc ▸ List.mem_cons_self c cs)
    rw [List.cons_append]
    simp only [lazyCap]
    rw [hk]
    simp only [hc, if_false]
    rw [ih (fun hm => hnl (List.mem_cons_of_mem c hm))
      (fun t ht hsuf => hfail t ht (hsuf.trans (List.suffix_cons c cs)))]
    rfl

theorem takeDigits_append (d rest : Str) (hd : ∀ c ∈ d, c.isDigit = true)
    (hr : ∀ x xs, rest = x :: xs → x.isDigit = false) :
    takeDigits (d ++ rest) = (d, rest) := by
  induction d with
  | nil =>
    cases rest with
    | nil => rfl
    | cons x xs => simp [takeDigits, hr x xs rfl]
  | cons c cs ih =>
    have hc : c.isDigit = true := hd c (List.mem_cons_self c cs)
    simp [takeDigits, hc, ih (fun a ha => hd a (List.mem_cons_of_mem c ha))]

theorem digitsGroup_append (d1 d2 r : Str)
    (h1 : d1 ≠ []) (hd1 : ∀ c ∈ d1, c.isDigit = true)
    (h2 : d2 ≠ []) (hd2 : ∀ c ∈ d2, c.isDigit = true) :
    digitsGroup (d1 ++ '.' :: (d2 ++ '%' :: r)) = some (d1 ++ '.' :: d2, '%' :: r) := by
  unfold digitsGroup
  rw [takeDigits_append d1 ('.' :: (d2 ++ '%' :: r)) hd1
    (fun x xs hx => by cases hx; decide)]
  simp only [h1, if_false]
  rw [takeDigits_append d2 ('%' :: r) hd2 (fun x xs hx => by cases hx; decide)]
  simp [h2]

theorem searchProg_head (kw l : Str) (r : Str × Str × Str)
    (h : matchProgAt kw l = some r) : searchProg kw l = some r := by
  cases l with
  | nil => simpa [searchProg] using h
  | cons c cs => simp [searchProg, h]

theorem endOrNl_nonl {e t : Str} (he : ('\n') ∉ e) (ht : t ≠ [])
    (hsuf : List.IsSuffix t e) : endOrNl (t ++ []) = none := by
  obtain ⟨c, cs, rfl⟩ := List.exists_cons_of_ne_nil ht
  have hc : ¬ c = '\n' := fun hcc => he (hcc ▸ hsuf.subset (List.mem_cons_self c cs))
  simp [endOrNl, hc]

theorem lazyCap_eta {e : Str} (he : ('\n') ∉ e) :
    lazyCap endOrNl e = some (e, ()) := by
  have h := lazyCap_append endOrNl e [] he (fun t ht hsuf => endOrNl_nonl he ht hsuf) () rfl
  simpa using h

theorem matchProgAt_shape (kw bar d1 d2 s e : Str)
    (hbar1 : (']') ∉ bar) (hbar2 : ('\n') ∉ bar)
    (h1 : d1 ≠ []) (hd1 : ∀ c ∈ d1, c.isDigit = true)
    (h2 : d2 ≠ []) (hd2 : ∀ c ∈ d2, c.isDigit = true)
    (hs1 : ('/') ∉ s) (hs2 : ('\n') ∉ s) (he : ('\n') ∉ e) :
    matchProgAt kw (mkProgLine kw bar (d1 ++ '.' :: d2) s e)
      = some (d1 ++ '.' :: d2, s, e) := by
  have hcap : lazyCap (fun cs6 =>
        (litM (("/s ETA: ").toList) cs6).bind (fun cs7 => lazyCap endOrNl cs7))
      (s ++ ((("/s ETA: ").toList) ++ e)) = some (s, (e, ())) := by
    apply lazyCap_append _ s _ hs2
    · intro t ht hsuf
      obtain ⟨c, cs, rfl⟩ := List.exists_cons_of_ne_nil ht
      have hc : ¬ ('/') = c := fun hcc =>
        hs1 (hcc ▸ hsuf.subset (List.mem_cons_self c cs))
      show (litM (("/s ETA: ").toList) ((c :: cs) ++ _)).bind _ = none
      rw [show (("/s ETA: ").toList) = '/' :: (("s ETA: ").toList) from rfl,
        List.cons_append, litM_head_ne _ _ hc]
      rfl
    · show (litM (("/s ETA: ").toList) ((("/s ETA: ").toList) ++ e)).bind _ = some _
      rw [litM_append]
      simpa using lazyCap_eta he
  have hk1 : (fun cs2 =>
        (litM (("] ").toList) cs2).bind (fun cs3 =>
          (digitsGroup cs3).bind (fun pr =>
            (litM (("% at ").toList) pr.2).bind (fun cs5 =>
              (lazyCap (fun cs6 =>
                  (litM (("/s ETA: ").toList) cs6).bind (fun cs7 => lazyCap endOrNl cs7))
                cs5).map (fun sa => (pr.1, sa.1, sa.2.1))))))
      ((("] ").toList) ++ ((d1 ++ '.' :: d2) ++ ((("% at ").toList)
        ++ (s ++ ((("/s ETA: ").toList) ++ e)))))
      = some (d1 ++ '.' :: d2, s, e) := by
    show (litM (("] ").toList) _).bind _ = _
    rw [litM_append]
    simp only [Option.some_bind]
    have hshape : (d1 ++ '.' :: d2) ++ ((("% at ").toList)
        ++ (s ++ ((("/s ETA: ").toList) ++ e)))
        = d1 ++ '.' :: (d2 ++ '%' :: (((" at ").toList)
            ++ (s ++ ((("/s ETA: ").toList) ++ e)))) := by
      rw [show (("% at ").toList) = '%' :: ((" at ").toList) from rfl]
      simp [List.append_assoc]
    rw [hshape, digitsGroup_append d1 d2 _ h1 hd1 h2 hd2]
    simp only [Option.some_bind]
    rw [show ('%' :: (((" at ").toList) ++ (s ++ ((("/s ETA: ").toList) ++ e))))
        = (("% at ").toList) ++ (s ++ ((("/s ETA: ").toList) ++ e)) from rfl,
      litM_append]
    simp only [Option.some_bind]
    rw [hcap]
    rfl
  unfold matchProgAt mkProgLine
  rw [show kw ++ ((": [").toList) ++ bar ++ (("] ").toList) ++ (d1 ++ '.' :: d2)
      ++ (("% at ").toList) ++ s ++ (("/s ETA: ").toList) ++ e
      = (kw ++ ((": [").toList)) ++ (bar ++ ((("] ").toList) ++ ((d1 ++ '.' :: d2)
          ++ ((("% at ").toList) ++ (s ++ ((("/s ETA: ").toList) ++ e))))))
    from by simp [List.append_assoc], litM_append]
  show lazySkip _ _ = _
  rw [lazySkip_append _ bar _ hbar2 ?fail]
  case fail =>
    intro t ht hsuf
    obtain ⟨c, cs, rfl⟩ := List.exists_cons_of_ne_nil ht
    have hc : ¬ (']') = c := fun hcc =>
      hbar1 (hcc ▸ hsuf.subset (List.mem_cons_self c cs))
    show (litM (("] ").toList) ((c :: cs) ++ _)).bind _ = none
    rw [show (("] ").toList) = ']' :: ((" ").toList) from rfl,
      List.cons_append, litM_head_ne _ _ hc]
    rfl
  exact lazySkip_of_found _ _ _ hk1

theorem mkProgLine_startsWith (kw bar p s e : Str) :
    startsWithL (kw ++ ((": [").toList)) (mkProgLine kw bar p s e) = true := by
  unfold mkProgLine
  simp only [List.append_assoc]
  exact startsWithL_append_left kw (startsWithL_self_append _ _)

theorem processLine_no_match (st : ProgState) (line : Str)
    (hv : searchProg (("Video").toList) line = none)
    (ha : searchProg (("Audio").toList) line = none) :
    processLine st line = st := by
  unfold processLine
  rw [hv, ha]

/-! ## C1: the stdout pattern match -/

/-- C1 (counterexample to the claim as stated): a line that is not of the
exact protocol shape — it starts with a stray character, while every line of
either exact shape starts with its stream marker (mkProgLine_startsWith) —
still updates the video stream's progress values, because re.search is
tolerant of surrounding text. -/
theorem C1_counterexample :
    startsWithL (("Video: [").toList)
      (("xVideo: [#] 12.5% at 1.2 MB/s ETA: 9s").toList) = false ∧
    startsWithL (("Audio: [").toList)
      (("xVideo: [#] 12.5% at 1.2 MB/s ETA: 9s").toList) = false ∧
    (processLine init_prog
        (("xVideo: [#] 12.5% at 1.2 MB/s ETA: 9s").toList)).video_speed
      = ("1.2 MB").toList ∧
    init_prog.video_speed = ("0 B/s").toList := by
  refine ⟨by decide, by decide, by decide, rfl⟩

/-- C1 (amended): on every line of the exact protocol shape (with bar free of
']' and newlines, percent a digits-dot-digits group, speed free of '/' and
newlines, eta free of newlines) the pattern search succeeds and extracts
exactly the percent text, the speed and the ETA; the matched branch stores
exactly these as the stream's percent (divided by 100), speed and ETA; and a
line on which neither stream's pattern search succeeds leaves all progress
state unchanged.  (The search is tolerant of surrounding text, so a line
merely containing the pattern also updates the values.) -/
theorem C1_progress_patterns :
    (∀ kw bar d1 d2 s e : Str,
      (']') ∉ bar → ('\n') ∉ bar →
      d1 ≠ [] → (∀ c ∈ d1, c.isDigit = true) →
      d2 ≠ [] → (∀ c ∈ d2, c.isDigit = true) →
      ('/') ∉ s → ('\n') ∉ s → ('\n') ∉ e →
      searchProg kw (mkProgLine kw bar (d1 ++ '.' :: d2) s e)
        = some (d1 ++ '.' :: d2, s, e)) ∧
    (∀ st : ProgState, ∀ p s e : Str,
      (applyVideo st p s e).video_speed = s ∧ (applyVideo st p s e).video_eta = e ∧
      (applyVideo st p s e).last_video_progress = parseDecimal p / 100 ∧
      (applyAudio st p s e).audio_speed = s ∧ (applyAudio st p s e).audio_eta = e ∧
      (applyAudio st p s e).last_audio_progress = parseDecimal p / 100) ∧
    (∀ st line, searchProg (("Video").toList) line = none →
      searchProg (("Audio").toList) line = none → processLine st line = st) := by
  refine ⟨?_, ?_, processLine_no_match⟩
  · intro kw bar d1 d2 s e hbar1 hbar2 h1 hd1 h2 hd2 hs1 hs2 he
    exact searchProg_head _ _ _
      (matchProgAt_shape kw bar d1 d2 s e hbar1 hbar2 h1 hd1 h2 hd2 hs1 hs2 he)
  · intro st p s e
    exact ⟨rfl, rfl, rfl, rfl, rfl, rfl⟩

/-- Witness for C1 on a concrete exact-shape line and a concrete
pattern-free line. -/
theorem C1_witness :
    searchProg (("Video").toList)
      (mkProgLine (("Video").toList) (("##").toList)
        ((("12").toList) ++ '.' :: (("5").toList)) (("1.2 MB").toList) (("9s").toList))
      = some ((("12").toList) ++ '.' :: (("5").toList),
          ("1.2 MB").toList, ("9s").toList) ∧
    processLine init_prog (("hello").toList) = init_prog :=
  ⟨C1_progress_patterns.1 (("Video").toList) (("##").toList) (("12").toList)
      (("5").toList) (("1.2 MB").toList) (("9s").toList)
      (by decide) (by decide) (by decide) (by decide) (by decide) (by decide)
      (by decide) (by decide) (by decide),
   C1_progress_patterns.2.2 init_prog (("hello").toList) (by decide) (by decide)⟩

/-! ## C2: the combined progress weighting -/

/-- C2: after processing any line on which a progress pattern matches, the
combined progress equals 0.6 times the last-seen video fraction plus 0.4
times the last-seen audio fraction, and the status text displays an overall
percentage of exactly 100 times the combined progress. -/
theorem C2_combined_progress (st : ProgState) (line : Str)
    (h : searchProg (("Video").toList) line ≠ none ∨
         searchProg (("Audio").toList) line ≠ none) :
    (processLine st line).combined_progress
      = (0.6 : ℚ) * (processLine st line).last_video_progress
        + (0.4 : ℚ) * (processLine st line).last_audio_progress ∧
    startsWithL ((("Overall: ").toList)
        ++ fmt1 ((processLine st line).combined_progress * 100) ++ [('%')])
      (processLine st line).status_text = true := by
  unfold processLine
  cases hv : searchProg (("Video").toList) line with
  | none =>
    cases ha : searchProg (("Audio").toList) line with
    | none =>
      rw [hv, ha] at h
      simp at h
    | some r =>
      dsimp only
      constructor
      · simp only [applyAudio]
        ring
      · simp only [applyAudio]
        simp only [List.append_assoc]
        apply startsWithL_append_left
        apply startsWithL_append_left
        rw [show (("% | Video: ").toList) = '%' :: ((" | Video: ").toList) from rfl,
          List.cons_append]
        simp [startsWithL]
  | some v =>
    cases ha : searchProg (("Audio").toList) line with
    | none =>
      dsimp only
      constructor
      · simp only [applyVideo]
        ring
      · simp only [applyVideo]
        by_cases haud : 0 < st.last_audio_progress
        · rw [if_pos haud]
          apply startsWithL_append_right
          simp only [List.append_assoc]
          apply startsWithL_append_left
          apply startsWithL_append_left
          rw [show (("% | Video: ").toList) = '%' :: ((" | Video: ").toList) from rfl,
            List.cons_append]
          simp [startsWithL]
        · rw [if_neg haud]
          simp only [List.append_assoc]
          apply startsWithL_append_left
          apply startsWithL_append_left
          rw [show (("% | Video: ").toList) = '%' :: ((" | Video: ").toList) from rfl,
            List.cons_append]
          simp [startsWithL]
    | some r =>
      dsimp only
      constructor
      · simp only [applyVideo, applyAudio]
        ring
      · simp only [applyVideo, applyAudio]
        simp only [List.append_assoc]
        apply startsWithL_append_left
        apply startsWithL_append_left
        rw [show (("% | Video: ").toList) = '%' :: ((" | Video: ").toList) from rfl,
          List.cons_append]
        simp [startsWithL]

/-- Witness for C2 on a concrete matching progress line. -/
theorem C2_witness :
    (processLine init_prog (("Video: [==] 37.5% at 1.2 MB/s ETA: 10s").toList)).combined_progress
      = (0.6 : ℚ)
          * (processLine init_prog
              (("Video: [==] 37.5% at 1.2 MB/s ETA: 10s").toList)).last_video_progress
        + (0.4 : ℚ)
          * (processLine init_prog
              (("Video: [==] 37.5% at 1.2 MB/s ETA: 10s").toList)).last_audio_progress ∧
    startsWithL ((("Overall: ").toList)
        ++ fmt1 ((processLine init_prog
            (("Video: [==] 37.5% at 1.2 MB/s ETA: 10s").toList)).combined_progress * 100)
        ++ [('%')])
      (processLine init_prog
        (("Video: [==] 37.5% at 1.2 MB/s ETA: 10s").toList)).status_text = true :=
  C2_combined_progress init_prog (("Video: [==] 37.5% at 1.2 MB/s ETA: 10s").toList)
    (Or.inl (by decide))

end App
